import Mathlib

/-!
Shallow embedding of `pdftool` (src/pdftool/main.py and src/pdftool/watermark.py).

Paths follow Python `pathlib.PurePath` semantics for `name`, `stem`, `suffix`
and `with_stem`.  The filesystem is an association list from paths to file
data; a `World` also records which paths are directories and which paths the
environment refuses to write (modelling I/O failures such as an unwritable
output file, the kind of error `pikepdf`'s `save` or reportlab's `canvas.save`
can raise).  PDF documents are lists of pages; a page is a media box plus a
content stack listed bottom-to-top, so `add_overlay` appends the overlay
page's content at the top.  Operations that can raise Python exceptions
return `Except`, carrying the world as mutated so far at the raise point.
-/

namespace PdfTool

/-! ### Character-list helpers (Python `str` operations used by the source) -/

/-- `chPre p s` is true when `p` is an initial segment of `s`. -/
def chPre : List Char → List Char → Bool
  | [], _ => true
  | _ :: _, [] => false
  | a :: as, b :: bs => a == b && chPre as bs

/-- `chSub p s`: `p` occurs as a contiguous substring of `s`
(Python's `p in s`). -/
def chSub (pat : List Char) : List Char → Bool
  | [] => chPre pat []
  | c :: rest => chPre pat (c :: rest) || chSub pat rest

/-- Python `pat in s` on strings. -/
def strHasSub (pat s : String) : Bool :=
  chSub pat.toList s.toList

/-- `strEnds s pat`: `s` ends with `pat`.  `fnmatch` translates the glob
pattern `*.pdf` to `.*\.pdf` anchored at the end, i.e. exactly the names
ending with the literal `.pdf` (the leading `*` may match the empty string). -/
def strEnds (s pat : String) : Bool :=
  chPre pat.toList.reverse s.toList.reverse

/-- Python `str.lower()` (ASCII is all the source compares). -/
def strLower (s : String) : String :=
  String.mk (s.toList.map Char.toLower)

/-- Index of the last `.` in a character list (`name.rfind('.')` when ≥ 0). -/
def lastDotIdx : List Char → Option Nat
  | [] => none
  | c :: rest =>
    match lastDotIdx rest with
    | some i => some (i + 1)
    | none => if c == '.' then some 0 else none

/-! ### Paths (`pathlib.PurePath`) -/

/-- A filesystem path: the chain of parent components and the final name. -/
structure FsPath where
  parent : List String
  name : String
deriving DecidableEq, Repr

/-- `PurePath.suffix`: the extension from the last dot of the name, empty
unless that dot is at an interior position (`0 < i < len(name) - 1`). -/
def suffixOf (name : String) : String :=
  match lastDotIdx name.toList with
  | none => ""
  | some i =>
    if 0 < i && i < name.toList.length - 1 then String.mk (name.toList.drop i) else ""

/-- `PurePath.stem`: the name with `suffixOf` removed. -/
def stemOf (name : String) : String :=
  match lastDotIdx name.toList with
  | none => name
  | some i =>
    if 0 < i && i < name.toList.length - 1 then String.mk (name.toList.take i) else name

/-- `PurePath.with_stem(s)` = `with_name(s + suffix)`. -/
def withStem (p : FsPath) (s : String) : FsPath :=
  { p with name := s ++ suffixOf p.name }

/-- The parent-component list a file must carry to be an immediate child of
directory `d`. -/
def dirAsParent (d : FsPath) : List String :=
  d.parent ++ [d.name]

/-! ### File data and worlds -/

/-- One item of a page's content stream.  `orig` abstracts pre-existing
content; `wmText` is the text reportlab draws for `create_watermark`
(centered at the page middle, rotated, with the given fill). -/
inductive PdfElem where
  | orig (id : Nat)
  | wmText (text font : String) (fontSize rotation : Int) (gray alpha : Rat)
deriving DecidableEq, Repr

/-- A PDF page: its MediaBox entries and its content, bottom-to-top. -/
structure Page where
  mediaBox : List Rat
  content : List PdfElem
deriving DecidableEq, Repr

/-- A parsed PDF document. -/
structure PdfDoc where
  pages : List Page
deriving DecidableEq, Repr

/-- What a file on disk holds: a well-formed PDF, or bytes `pikepdf` cannot
parse (`raw`). -/
inductive FileData where
  | pdf (doc : PdfDoc)
  | raw (tag : Nat)
deriving DecidableEq, Repr

/-- The filesystem and environment.  `locked` lists paths any write to which
raises an `OSError`-style exception (the environment's prerogative). -/
structure World where
  files : List (FsPath × FileData)
  dirs : List FsPath
  locked : List FsPath
deriving DecidableEq, Repr

def lookupFile : List (FsPath × FileData) → FsPath → Option FileData
  | [], _ => none
  | (q, d) :: rest, p => if q = p then some d else lookupFile rest p

def writeFile : List (FsPath × FileData) → FsPath → FileData → List (FsPath × FileData)
  | [], p, d => [(p, d)]
  | (q, e) :: rest, p, d => if q = p then (p, d) :: rest else (q, e) :: writeFile rest p d

def removeFile : List (FsPath × FileData) → FsPath → List (FsPath × FileData)
  | [], _ => []
  | (q, e) :: rest, p => if q = p then removeFile rest p else (q, e) :: removeFile rest p

def wWrite (w : World) (p : FsPath) (d : FileData) : World :=
  { w with files := writeFile w.files p d }

def wDelete (w : World) (p : FsPath) : World :=
  { w with files := removeFile w.files p }

def memPath : List FsPath → FsPath → Bool
  | [], _ => false
  | q :: rest, p => if q = p then true else memPath rest p

/-- `Path.is_file()`. -/
def isFile (w : World) (p : FsPath) : Bool :=
  (lookupFile w.files p).isSome

/-- `Path.is_dir()`. -/
def isDir (w : World) (p : FsPath) : Bool :=
  memPath w.dirs p

/-- `target.glob("*.pdf")`: the immediate-child files of `d` whose name
matches the case-sensitive pattern `*.pdf`, in directory-enumeration order
(the order of `w.files`). -/
def globPdf (w : World) (d : FsPath) : List FsPath :=
  (w.files.map Prod.fst).filter
    (fun p => decide (p.parent = dirAsParent d) && strEnds p.name ".pdf")

/-! ### The shrink pipeline (`main.py`) -/

/-- How a CLI command invocation ends: normal return, `typer.Exit(1)`, or an
uncaught Python exception.  Each carries the world at that point. -/
inductive Outcome where
  | success (w : World)
  | exitFail (w : World)
  | crash (w : World) (msg : String)
deriving DecidableEq, Repr

/-- `shrink_pdf(input_path, output_path)`: `pikepdf.open` then `save` with
linearization and flate recompression (structure-only optimization: page
content is preserved).  Raises when the input is missing or unparsable, or
when the environment refuses the write of the output. -/
def shrink_pdf (w : World) (input output : FsPath) : Except (World × String) World :=
  match lookupFile w.files input with
  | some (FileData.pdf doc) =>
    if memPath w.locked output then .error (w, "save failed")
    else .ok (wWrite w output (FileData.pdf doc))
  | some (FileData.raw _) => .error (w, "pikepdf failed to process pdf")
  | none => .error (w, "file not found")

/-- Output path selection in `shrink` (`main.py` lines 122-124 and 140-144):
the target itself when overwriting, else `with_stem(stem + "_shrunken")`. -/
def shrinkOut (t : FsPath) (overwrite : Bool) : FsPath :=
  if overwrite then t else withStem t (stemOf t.name ++ "_shrunken")

/-- The `for pdf_file in pdf_files` loop of `shrink`.  There is no
`try`/`except` around `shrink_pdf`, so the first raise aborts the loop. -/
def shrinkBatch (w : World) (fs : List FsPath) (overwrite : Bool) : Outcome :=
  match fs with
  | [] => .success w
  | f :: rest =>
    match shrink_pdf w f (shrinkOut f overwrite) with
    | .error (w2, e) => .crash w2 e
    | .ok w2 => shrinkBatch w2 rest overwrite

/-- The `shrink` command body. -/
def shrinkCmd (w : World) (target : FsPath) (overwrite : Bool) : Outcome :=
  if isFile w target then
    if strLower (suffixOf target.name) = ".pdf" then
      match shrink_pdf w target (shrinkOut target overwrite) with
      | .error (w2, e) => .crash w2 e
      | .ok w2 => .success w2
    else .exitFail w
  else if isDir w target then
    let pdfFiles := globPdf w target
    if pdfFiles.isEmpty then .exitFail w
    else shrinkBatch w pdfFiles overwrite
  else .exitFail w

/-! ### The watermark pipeline (`watermark.py`) -/

/-- The watermark parameters threaded from the CLI into `add_watermark`. -/
structure WmArgs where
  text : String
  font : String
  fontSize : Int
  rotation : Int
  gray : Rat
  alpha : Rat
deriving DecidableEq, Repr

/-- `target_pdf.with_stem(f"{target_pdf.stem}_temp")` (line 92). -/
def tempPath (t : FsPath) : FsPath :=
  withStem t (stemOf t.name ++ "_temp")

/-- Output path selection in `add_watermark` (lines 79-83). -/
def wmOut (t : FsPath) (overwrite : Bool) : FsPath :=
  if overwrite then t else withStem t (stemOf t.name ++ "_watermarked")

/-- The single-page PDF `create_watermark` renders: a page of the given
dimensions holding only the watermark text. -/
def overlayDoc (pw ph : Rat) (a : WmArgs) : PdfDoc :=
  { pages := [{ mediaBox := [0, 0, pw, ph],
                content := [.wmText a.text a.font a.fontSize a.rotation a.gray a.alpha] }] }

/-- `page.add_overlay(watermark_page)`: the overlay page's content is
composited on top of (after, in stream order) the page's existing content. -/
def addOverlay (p ov : Page) : Page :=
  { p with content := p.content ++ ov.content }

/-- `add_watermark(target_pdf, ...)`.  Mirrors the source's control flow:
marker skip; output-path choice; open target; first page's MediaBox[2]/[3];
write the temp overlay; reopen it; overlay every page; save; unlink temp.
Each raise surfaces the world as mutated so far. -/
def add_watermark (w : World) (target : FsPath) (a : WmArgs) (overwrite : Bool) :
    Except (World × String) World :=
  if strHasSub "_watermarked" (stemOf target.name) then .ok w
  else
    let output := wmOut target overwrite
    match lookupFile w.files target with
    | none => .error (w, "file not found")
    | some (.raw _) => .error (w, "pikepdf failed to open pdf")
    | some (.pdf doc) =>
      match doc.pages with
      | [] => .error (w, "IndexError: pages")
      | firstPage :: _ =>
        match firstPage.mediaBox[2]?, firstPage.mediaBox[3]? with
        | some pw, some ph =>
          let tmp := tempPath target
          if memPath w.locked tmp then .error (w, "canvas save failed")
          else
            let w1 := wWrite w tmp (.pdf (overlayDoc pw ph a))
            match lookupFile w1.files tmp with
            | some (.pdf ovDoc) =>
              match ovDoc.pages with
              | [] => .error (w1, "IndexError: pages")
              | ovPage :: _ =>
                let newDoc : PdfDoc := { pages := doc.pages.map (fun p => addOverlay p ovPage) }
                if memPath w1.locked output then .error (w1, "save failed")
                else
                  let w2 := wWrite w1 output (.pdf newDoc)
                  .ok (wDelete w2 tmp)
            | _ => .error (w1, "pikepdf failed to open pdf")
        | _, _ => .error (w, "MediaBox access failed")

/-- The `for pdf_file in path.glob("*.pdf")` loop of `watermark`; like
shrink's loop it has no per-file exception handling. -/
def wmBatch (w : World) (fs : List FsPath) (a : WmArgs) (overwrite : Bool) : Outcome :=
  match fs with
  | [] => .success w
  | f :: rest =>
    match add_watermark w f a overwrite with
    | .error (w2, e) => .crash w2 e
    | .ok w2 => wmBatch w2 rest a overwrite

/-- The `watermark` command body.  Note: no extension check in the
single-file branch, and no empty-folder check in the directory branch. -/
def watermarkCmd (w : World) (path : FsPath) (a : WmArgs) (overwrite : Bool) : Outcome :=
  if isFile w path then
    match add_watermark w path a overwrite with
    | .error (w2, e) => .crash w2 e
    | .ok w2 => .success w2
  else if isDir w path then
    wmBatch w (globPdf w path) a overwrite
  else .exitFail w

/-- The single overlay element `create_watermark` draws. -/
def wmElem (a : WmArgs) : PdfElem :=
  .wmText a.text a.font a.fontSize a.rotation a.gray a.alpha

/-- The page of `overlayDoc`. -/
def overlayPage (pw ph : Rat) (a : WmArgs) : Page :=
  { mediaBox := [0, 0, pw, ph], content := [wmElem a] }

/-- The final world of a successful non-skip `add_watermark` run. -/
def wmFinal (w : World) (t : FsPath) (a : WmArgs) (ov : Bool)
    (doc : PdfDoc) (pw ph : Rat) : World :=
  wDelete
    (wWrite (wWrite w (tempPath t) (.pdf (overlayDoc pw ph a)))
      (wmOut t ov)
      (.pdf { pages := doc.pages.map (fun p => addOverlay p (overlayPage pw ph a)) }))
    (tempPath t)

deriving instance DecidableEq for Except

def cDoc1 : PdfDoc := ⟨[⟨[0, 0, 612, 792], [.orig 1]⟩]⟩
def cDoc2 : PdfDoc := ⟨[⟨[0, 0, 612, 792], [.orig 1]⟩, ⟨[0, 0, 612, 792], [.orig 2]⟩]⟩
def cArgs : WmArgs := ⟨"DRAFT", "Helvetica", 45, 35, mkRat 1 2, mkRat 1 2⟩
def cDir : FsPath := ⟨[], "folder"⟩
def cBad : FsPath := ⟨["folder"], "bad.pdf"⟩
def cGood : FsPath := ⟨["folder"], "good.pdf"⟩
def cW1 : World := ⟨[(cBad, .raw 0), (cGood, .pdf cDoc1)], [cDir], []⟩
def cA : FsPath := ⟨[], "a.pdf"⟩
def cW2 : World := ⟨[(cA, .pdf cDoc1)], [], [⟨[], "a_watermarked.pdf"⟩]⟩
def cWa : World := ⟨[(cA, .pdf cDoc1)], [], []⟩

def cB : FsPath := ⟨[], "b.pdf"⟩
def cW3 : World := ⟨[(cB, .pdf cDoc2)], [], []⟩
def cXw : FsPath := ⟨[], "x_watermarked.pdf"⟩
def cW4 : World := ⟨[(cXw, .pdf cDoc1)], [], []⟩
def cNb : FsPath := ⟨[], "notes.txt"⟩
def cW5 : World := ⟨[(cNb, .pdf cDoc1)], [], []⟩
def cWEmpty : World := ⟨[], [cDir], []⟩
def cXPDF : FsPath := ⟨["folder"], "X.PDF"⟩
def cW8 : World := ⟨[(cXPDF, .pdf cDoc1)], [cDir], []⟩
def cTmpA : FsPath := ⟨[], "a_temp.pdf"⟩
def cW9 : World := ⟨[(cA, .pdf cDoc1), (cTmpA, .raw 7)], [], []⟩
def cAf : FsPath := ⟨["folder"], "a.pdf"⟩
def cASf : FsPath := ⟨["folder"], "a_shrunken.pdf"⟩
def cASSf : FsPath := ⟨["folder"], "a_shrunken_shrunken.pdf"⟩
def cW10 : World := ⟨[(cAf, .pdf cDoc1)], [cDir], []⟩
def cW10b : World := ⟨[(cAf, .pdf cDoc1), (cASf, .pdf cDoc1)], [cDir], []⟩
def cW10c : World := ⟨[(cAf, .pdf cDoc1), (cASf, .pdf cDoc1), (cASSf, .pdf cDoc1)], [cDir], []⟩
def cXsy : FsPath := ⟨[], "x_shrunken_y.pdf"⟩
def cW10x : World := ⟨[(cXsy, .pdf cDoc1)], [], []⟩

theorem toList_mk (l : List Char) : (String.mk l).toList = l := rfl

theorem mk_toList (s : String) : String.mk s.toList = s := rfl

theorem toList_append (s t : String) : (s ++ t).toList = s.toList ++ t.toList := by
  cases s; cases t; rfl

theorem toList_inj {s t : String} (h : s.toList = t.toList) : s = t := by
  cases s; cases t; exact congrArg String.mk h

theorem stem_append_suffix (n : String) : stemOf n ++ suffixOf n = n := by
  apply toList_inj
  rw [toList_append]
  unfold stemOf suffixOf
  cases h : lastDotIdx n.toList with
  | none => simp
  | some i =>
    by_cases hc : (decide (0 < i) && decide (i < n.toList.length - 1)) = true
    · simp only [hc, if_true, toList_mk, List.take_append_drop]
    · simp only [hc, if_false]
      simp

theorem withStem_parent (p : FsPath) (s : String) : (withStem p s).parent = p.parent := rfl

theorem withStem_name (p : FsPath) (s : String) :
    (withStem p s).name = s ++ suffixOf p.name := rfl

theorem withStem_marker_ne_self (p : FsPath) (m : String) (hm : m.toList ≠ []) :
    withStem p (stemOf p.name ++ m) ≠ p := by
  intro h
  have hn : (stemOf p.name ++ m) ++ suffixOf p.name = p.name := congrArg FsPath.name h
  have hlen := congrArg (fun s => s.toList.length) hn
  simp only [toList_append, List.length_append] at hlen
  have hx := congrArg (fun s => s.toList.length) (stem_append_suffix p.name)
  simp only [toList_append, List.length_append] at hx
  have : m.toList.length = 0 := by omega
  exact hm (List.length_eq_zero.mp this)

theorem withStem_marker_ne (p : FsPath) (m1 m2 : String)
    (h : m1.toList.length ≠ m2.toList.length) :
    withStem p (stemOf p.name ++ m1) ≠ withStem p (stemOf p.name ++ m2) := by
  intro he
  have hn := congrArg FsPath.name he
  simp only [withStem_name] at hn
  have hlen := congrArg (fun s => s.toList.length) hn
  simp only [toList_append, List.length_append] at hlen
  omega

theorem lookup_write_same (l : List (FsPath × FileData)) (p : FsPath) (d : FileData) :
    lookupFile (writeFile l p d) p = some d := by
  induction l with
  | nil => simp [writeFile, lookupFile]
  | cons e rest ih =>
    obtain ⟨q, v⟩ := e
    by_cases h : q = p
    · simp [writeFile, h, lookupFile]
    · simp [writeFile, h, lookupFile, ih]

theorem lookup_write_other (l : List (FsPath × FileData)) (p r : FsPath) (d : FileData)
    (h : r ≠ p) : lookupFile (writeFile l p d) r = lookupFile l r := by
  induction l with
  | nil => simp [writeFile, lookupFile, Ne.symm h]
  | cons e rest ih =>
    obtain ⟨q, v⟩ := e
    by_cases hq : q = p
    · subst hq
      simp [writeFile, lookupFile, Ne.symm h]
    · by_cases hr : q = r
      · subst hr
        simp [writeFile, hq, lookupFile]
      · simp [writeFile, hq, lookupFile, hr, ih]

theorem lookup_remove_same (l : List (FsPath × FileData)) (p : FsPath) :
    lookupFile (removeFile l p) p = none := by
  induction l with
  | nil => simp [removeFile, lookupFile]
  | cons e rest ih =>
    obtain ⟨q, v⟩ := e
    by_cases h : q = p
    · simp [removeFile, h, ih]
    · simp [removeFile, h, lookupFile, ih]

theorem lookup_remove_other (l : List (FsPath × FileData)) (p r : FsPath)
    (h : r ≠ p) : lookupFile (removeFile l p) r = lookupFile l r := by
  induction l with
  | nil => simp [removeFile, lookupFile]
  | cons e rest ih =>
    obtain ⟨q, v⟩ := e
    by_cases hq : q = p
    · subst hq
      simp [removeFile, lookupFile, Ne.symm h, ih]
    · by_cases hr : q = r
      · subst hr
        simp [removeFile, hq, lookupFile, ih]
      · simp [removeFile, hq, lookupFile, hr, ih]

theorem add_watermark_ok_inv {w : World} {t : FsPath} {a : WmArgs} {ov : Bool} {w' : World}
    (h : add_watermark w t a ov = .ok w') :
    (strHasSub "_watermarked" (stemOf t.name) = true ∧ w' = w) ∨
    (strHasSub "_watermarked" (stemOf t.name) = false ∧
     ∃ doc fp rest pw ph,
       lookupFile w.files t = some (.pdf doc) ∧
       doc.pages = fp :: rest ∧
       fp.mediaBox[2]? = some pw ∧ fp.mediaBox[3]? = some ph ∧
       memPath w.locked (tempPath t) = false ∧
       memPath w.locked (wmOut t ov) = false ∧
       w' = wmFinal w t a ov doc pw ph) := by
  unfold add_watermark at h
  by_cases hm : strHasSub "_watermarked" (stemOf t.name) = true
  · rw [if_pos hm] at h
    exact Or.inl ⟨hm, ((Except.ok.injEq _ _).mp h).symm⟩
  · rw [if_neg hm] at h
    refine Or.inr ⟨(Bool.not_eq_true _).mp hm, ?_⟩
    simp only [] at h
    split at h
    · cases h
    · cases h
    · rename_i doc hl
      split at h
      · cases h
      · rename_i fp rest hp
        split at h
        · rename_i pw ph h2 h3
          split at h
          · cases h
          · rename_i hlt
            split at h
            · rename_i ovDoc heq
              rw [show (wWrite w (tempPath t) (.pdf (overlayDoc pw ph a))).files
                    = writeFile w.files (tempPath t) (.pdf (overlayDoc pw ph a)) from rfl,
                  lookup_write_same] at heq
              have hov : overlayDoc pw ph a = ovDoc := by
                have := (Option.some.injEq _ _).mp heq
                exact (FileData.pdf.injEq _ _).mp this
              split at h
              · rename_i hnil
                rw [← hov] at hnil
                cases hnil
              · rename_i ovPage tail hcons
                rw [← hov] at hcons
                have hpg : overlayPage pw ph a = ovPage := by
                  have := (List.cons.injEq _ _ _ _).mp hcons
                  exact this.1
                split at h
                · cases h
                · rename_i hlo
                  refine ⟨doc, fp, rest, pw, ph, hl, hp, h2, h3,
                    (Bool.not_eq_true _).mp hlt, ?_, ?_⟩
                  · simpa using (Bool.not_eq_true _).mp hlo
                  · have hw := ((Except.ok.injEq _ _).mp h).symm
                    rw [hw, ← hpg]
                    rfl
            · cases h
        · cases h

theorem shrink_pdf_ok_inv {w w' : World} {i o : FsPath} (h : shrink_pdf w i o = .ok w') :
    ∃ doc, lookupFile w.files i = some (.pdf doc) ∧ memPath w.locked o = false ∧
      w' = wWrite w o (.pdf doc) := by
  unfold shrink_pdf at h
  split at h
  · rename_i doc hl
    split at h
    · cases h
    · rename_i hlk
      exact ⟨doc, hl, (Bool.not_eq_true _).mp hlk, ((Except.ok.injEq _ _).mp h).symm⟩
  · cases h
  · cases h

theorem add_watermark_eval {w : World} {t : FsPath} {a : WmArgs} {ov : Bool}
    {doc : PdfDoc} {fp : Page} {rest : List Page} {pw ph : Rat}
    (hm : strHasSub "_watermarked" (stemOf t.name) = false)
    (hl : lookupFile w.files t = some (.pdf doc))
    (hp : doc.pages = fp :: rest)
    (h2 : fp.mediaBox[2]? = some pw) (h3 : fp.mediaBox[3]? = some ph)
    (hlt : memPath w.locked (tempPath t) = false)
    (hlo : memPath w.locked (wmOut t ov) = false) :
    add_watermark w t a ov = .ok (wmFinal w t a ov doc pw ph) := by
  simp only [add_watermark, hm, hl, hp, h2, h3]
  simp only [wWrite, lookup_write_same, overlayDoc]
  simp [hlt, hlo, wmFinal, wWrite, wDelete, overlayDoc, overlayPage, wmElem, hp]

theorem tempPath_ne_self (t : FsPath) : tempPath t ≠ t :=
  withStem_marker_ne_self t "_temp" (by decide)

theorem shrinkOut_ne_self (t : FsPath) : shrinkOut t false ≠ t :=
  withStem_marker_ne_self t "_shrunken" (by decide)

theorem wmOut_ne_self (t : FsPath) : wmOut t false ≠ t :=
  withStem_marker_ne_self t "_watermarked" (by decide)

theorem wmOut_ne_tempPath (t : FsPath) (ov : Bool) : wmOut t ov ≠ tempPath t := by
  cases ov with
  | false => exact withStem_marker_ne t "_watermarked" "_temp" (by decide)
  | true =>
    show t ≠ tempPath t
    exact fun h => tempPath_ne_self t h.symm

theorem lastDot_append_nodot (es : List Char) (he : lastDotIdx es = none) (cs : List Char) :
    lastDotIdx (cs ++ '.' :: es) = some cs.length := by
  induction cs with
  | nil => simp [lastDotIdx, he]
  | cons c cs ih => simp [lastDotIdx, ih]

theorem stemOf_append_pdf (s : String) (hs : s.toList ≠ []) :
    stemOf (s ++ ".pdf") = s := by
  unfold stemOf
  have ht : (s ++ ".pdf").toList = s.toList ++ '.' :: ['p', 'd', 'f'] := by
    rw [toList_append]; rfl
  rw [ht, lastDot_append_nodot ['p', 'd', 'f'] rfl s.toList]
  have h0 : 0 < s.toList.length := List.length_pos.mpr hs
  have h1 : s.toList.length < (s.toList ++ '.' :: ['p', 'd', 'f']).length - 1 := by
    simp [List.length_append]
  simp only [h0, h1, decide_eq_true_eq, decide_True, Bool.and_self, if_true]
  rw [List.take_left]
  exact mk_toList s

theorem chPre_append_cancel (a b c : List Char) : chPre (a ++ b) (a ++ c) = chPre b c := by
  induction a with
  | nil => rfl
  | cons x xs ih => simp [chPre, ih]

theorem strEnds_append_cancel (x p m : String) : strEnds (x ++ m) (p ++ m) = strEnds x p := by
  unfold strEnds
  rw [toList_append, toList_append, List.reverse_append, List.reverse_append,
    chPre_append_cancel]

/-- C1 (amended): in a folder batch, a per-file processing error is not
isolated: the first file whose processing raises aborts the loop with that
exception, the state stays as it was at the raise point, and the remaining
files of the enumeration are not attempted — for shrink and watermark alike. -/
theorem c1_per_file_error_aborts_batch :
    (∀ (w w2 : World) (f : FsPath) (rest : List FsPath) (ov : Bool) (e : String),
      shrink_pdf w f (shrinkOut f ov) = .error (w2, e) →
      shrinkBatch w (f :: rest) ov = .crash w2 e) ∧
    (∀ (w w2 : World) (f : FsPath) (rest : List FsPath) (a : WmArgs) (ov : Bool) (e : String),
      add_watermark w f a ov = .error (w2, e) →
      wmBatch w (f :: rest) a ov = .crash w2 e) := by
  constructor
  · intro w w2 f rest ov e h
    simp [shrinkBatch, h]
  · intro w w2 f rest a ov e h
    simp [wmBatch, h]

theorem c1_witness :
    shrinkBatch cW1 [cBad, cGood] false = .crash cW1 "pikepdf failed to process pdf" ∧
    wmBatch cW1 [cBad, cGood] cArgs false = .crash cW1 "pikepdf failed to open pdf" :=
  ⟨c1_per_file_error_aborts_batch.1 cW1 cW1 cBad [cGood] false
      "pikepdf failed to process pdf" (by decide),
   c1_per_file_error_aborts_batch.2 cW1 cW1 cBad [cGood] cArgs false
      "pikepdf failed to open pdf" (by decide)⟩

theorem c1_counterexample :
    shrinkCmd cW1 cDir false = .crash cW1 "pikepdf failed to process pdf" ∧
    lookupFile cW1.files (shrinkOut cGood false) = none := by decide

/-- C2 (amended): when `add_watermark` returns normally on a non-skipped
target, no file remains at the temporary overlay path; but a failure during
saving, after the overlay was created, leaves the temporary file on disk at
the raise point. -/
theorem c2_temp_deleted_on_success_only :
    (∀ (w : World) (t : FsPath) (a : WmArgs) (ov : Bool) (w2 : World),
      strHasSub "_watermarked" (stemOf t.name) = false →
      add_watermark w t a ov = .ok w2 →
      lookupFile w2.files (tempPath t) = none) ∧
    (∃ (w w2 : World) (e : String),
      add_watermark w cA cArgs false = .error (w2, e) ∧
      lookupFile w2.files (tempPath cA) ≠ none) := by
  constructor
  · intro w t a ov w2 hm h
    rcases add_watermark_ok_inv h with ⟨hm2, _⟩ | ⟨_, _, _, _, _, _,
      _, _, _, _, _, _, hw⟩
    · rw [hm2] at hm; cases hm
    · rw [hw]
      exact lookup_remove_same _ _
  · exact ⟨cW2, wWrite cW2 (tempPath cA) (.pdf (overlayDoc 612 792 cArgs)),
      "save failed", by decide, by decide⟩

theorem c2_witness :
    lookupFile (wmFinal cWa cA cArgs false cDoc1 612 792).files (tempPath cA) = none :=
  c2_temp_deleted_on_success_only.1 cWa cA cArgs false
    (wmFinal cWa cA cArgs false cDoc1 612 792) (by decide) (by decide)

theorem c2_counterexample :
    add_watermark cW2 cA cArgs false =
      .error (wWrite cW2 (tempPath cA) (.pdf (overlayDoc 612 792 cArgs)), "save failed") ∧
    lookupFile (wWrite cW2 (tempPath cA) (.pdf (overlayDoc 612 792 cArgs))).files (tempPath cA)
      = some (.pdf (overlayDoc 612 792 cArgs)) := by decide

/-- C4: when the target's stem already contains the `_watermarked` marker,
`add_watermark` returns normally with the world unchanged: no file is
created, modified or deleted. -/
theorem c4_marker_skip_is_noop :
    ∀ (w : World) (t : FsPath) (a : WmArgs) (ov : Bool),
      strHasSub "_watermarked" (stemOf t.name) = true →
      add_watermark w t a ov = .ok w := by
  intro w t a ov h
  unfold add_watermark
  rw [if_pos h]

theorem c4_witness : add_watermark cW4 cXw cArgs false = .ok cW4 :=
  c4_marker_skip_is_noop cW4 cXw cArgs false (by decide)

theorem wWrite_files (w : World) (p : FsPath) (d : FileData) :
    (wWrite w p d).files = writeFile w.files p d := rfl

theorem wDelete_files (w : World) (p : FsPath) :
    (wDelete w p).files = removeFile w.files p := rfl

/-- C3: on a valid PDF whose stem lacks the marker, a completed watermark run
leaves at the computed output path a document with the same page count, whose
i-th page keeps the i-th input page's media box and has the overlay text
appended on top of (after) that page's existing content. -/
theorem c3_overlay_on_every_page :
    ∀ (w : World) (t : FsPath) (a : WmArgs) (ov : Bool) (w2 : World) (doc : PdfDoc),
      strHasSub "_watermarked" (stemOf t.name) = false →
      lookupFile w.files t = some (.pdf doc) →
      add_watermark w t a ov = .ok w2 →
      ∃ (d' : PdfDoc),
        lookupFile w2.files (wmOut t ov) = some (.pdf d') ∧
        d'.pages.length = doc.pages.length ∧
        ∀ (i : Nat) (h1 : i < d'.pages.length) (h2 : i < doc.pages.length),
          (d'.pages.get ⟨i, h1⟩).mediaBox = (doc.pages.get ⟨i, h2⟩).mediaBox ∧
          (d'.pages.get ⟨i, h1⟩).content = (doc.pages.get ⟨i, h2⟩).content ++ [wmElem a] := by
  intro w t a ov w2 doc hm hl h
  rcases add_watermark_ok_inv h with ⟨hm2, _⟩ | ⟨_, doc0, fp, rest, pw, ph,
    hl0, hp, hm2, hm3, hlt, hlo, hw⟩
  · rw [hm2] at hm; cases hm
  · rw [hl] at hl0
    have hd : doc0 = doc :=
      ((FileData.pdf.injEq _ _).mp ((Option.some.injEq _ _).mp hl0)).symm
    subst hd
    refine ⟨⟨doc0.pages.map (fun p => addOverlay p (overlayPage pw ph a))⟩, ?_, ?_, ?_⟩
    · rw [hw]
      unfold wmFinal
      rw [wDelete_files, lookup_remove_other _ _ _ (wmOut_ne_tempPath t ov),
        wWrite_files, lookup_write_same]
    · simp
    · intro i h1 h2
      constructor
      · simp [List.get_eq_getElem, List.getElem_map, addOverlay]
      · simp [List.get_eq_getElem, List.getElem_map, addOverlay, overlayPage]

theorem c3_witness :
    ∃ (d' : PdfDoc),
      lookupFile (wmFinal cW3 cB cArgs false cDoc2 612 792).files (wmOut cB false)
        = some (.pdf d') ∧
      d'.pages.length = cDoc2.pages.length ∧
      ∀ (i : Nat) (h1 : i < d'.pages.length) (h2 : i < cDoc2.pages.length),
        (d'.pages.get ⟨i, h1⟩).mediaBox = (cDoc2.pages.get ⟨i, h2⟩).mediaBox ∧
        (d'.pages.get ⟨i, h1⟩).content = (cDoc2.pages.get ⟨i, h2⟩).content ++ [wmElem cArgs] :=
  c3_overlay_on_every_page cW3 cB cArgs false
    (wmFinal cW3 cB cArgs false cDoc2 612 792) cDoc2 (by decide) (by decide) (by decide)

/-- C5 (amended): the `.pdf`-extension validation on a single-file target
exists only in `shrink`, which exits with code 1 on any other extension
before touching anything; `watermark` performs no extension check and hands
any existing single-file target straight to `add_watermark`. -/
theorem c5_extension_check_shrink_only :
    (∀ (w : World) (t : FsPath) (ov : Bool),
      isFile w t = true → ¬ strLower (suffixOf t.name) = ".pdf" →
      shrinkCmd w t ov = .exitFail w) ∧
    (∀ (w : World) (t : FsPath) (a : WmArgs) (ov : Bool) (w2 : World),
      isFile w t = true → add_watermark w t a ov = .ok w2 →
      watermarkCmd w t a ov = .success w2) := by
  constructor
  · intro w t ov hf hs
    simp [shrinkCmd, hf, hs]
  · intro w t a ov w2 hf h
    simp [watermarkCmd, hf, h]

theorem c5_witness :
    shrinkCmd cW5 cNb false = .exitFail cW5 ∧
    watermarkCmd cW5 cNb cArgs false =
      .success (wmFinal cW5 cNb cArgs false cDoc1 612 792) :=
  ⟨c5_extension_check_shrink_only.1 cW5 cNb false (by decide) (by decide),
   c5_extension_check_shrink_only.2 cW5 cNb cArgs false
     (wmFinal cW5 cNb cArgs false cDoc1 612 792) (by decide) (by decide)⟩

theorem c5_counterexample :
    watermarkCmd cW5 cNb cArgs false =
      .success (wmFinal cW5 cNb cArgs false cDoc1 612 792) ∧
    lookupFile (wmFinal cW5 cNb cArgs false cDoc1 612 792).files ⟨[], "notes_watermarked.txt"⟩
      = some (.pdf ⟨[⟨[0, 0, 612, 792], [.orig 1, wmElem cArgs]⟩]⟩) := by decide

/-- C6 (amended): a folder with no `*.pdf` match makes `shrink` exit with
code 1 on the "no PDF files found" message and write nothing; `watermark`
has no such check — its loop body never runs and the command returns
normally, also writing nothing. -/
theorem c6_empty_folder_error_shrink_only :
    (∀ (w : World) (d : FsPath) (ov : Bool),
      isFile w d = false → isDir w d = true → globPdf w d = [] →
      shrinkCmd w d ov = .exitFail w) ∧
    (∀ (w : World) (d : FsPath) (a : WmArgs) (ov : Bool),
      isFile w d = false → isDir w d = true → globPdf w d = [] →
      watermarkCmd w d a ov = .success w) := by
  constructor
  · intro w d ov hf hd hg
    simp [shrinkCmd, hf, hd, hg]
  · intro w d a ov hf hd hg
    simp [watermarkCmd, hf, hd, hg, wmBatch]

theorem c6_witness :
    shrinkCmd cWEmpty cDir false = .exitFail cWEmpty ∧
    watermarkCmd cWEmpty cDir cArgs false = .success cWEmpty :=
  ⟨c6_empty_folder_error_shrink_only.1 cWEmpty cDir false (by decide) (by decide) (by decide),
   c6_empty_folder_error_shrink_only.2 cWEmpty cDir cArgs false
     (by decide) (by decide) (by decide)⟩

theorem c6_counterexample :
    watermarkCmd cWEmpty cDir cArgs false = .success cWEmpty ∧
    shrinkCmd cWEmpty cDir false = .exitFail cWEmpty := by decide

/-- C7: overwrite mode reuses the input path for both operations; non-
overwrite mode inserts the marker between stem and extension, which is always
a path distinct from the input, and a completed non-overwrite run leaves the
input file's contents untouched. -/
theorem c7_output_paths_and_input_preserved :
    (∀ t : FsPath, shrinkOut t true = t ∧ wmOut t true = t) ∧
    (∀ t : FsPath,
      (shrinkOut t false).parent = t.parent ∧
      (shrinkOut t false).name = (stemOf t.name ++ "_shrunken") ++ suffixOf t.name ∧
      shrinkOut t false ≠ t ∧
      (wmOut t false).parent = t.parent ∧
      (wmOut t false).name = (stemOf t.name ++ "_watermarked") ++ suffixOf t.name ∧
      wmOut t false ≠ t) ∧
    (∀ (w w2 : World) (t : FsPath),
      shrink_pdf w t (shrinkOut t false) = .ok w2 →
      lookupFile w2.files t = lookupFile w.files t) ∧
    (∀ (w w2 : World) (t : FsPath) (a : WmArgs),
      add_watermark w t a false = .ok w2 →
      lookupFile w2.files t = lookupFile w.files t) := by
  refine ⟨fun t => ⟨rfl, rfl⟩,
    fun t => ⟨rfl, rfl, shrinkOut_ne_self t, rfl, rfl, wmOut_ne_self t⟩, ?_, ?_⟩
  · intro w w2 t h
    obtain ⟨doc, _, _, hw⟩ := shrink_pdf_ok_inv h
    rw [hw, wWrite_files, lookup_write_other _ _ _ _ (Ne.symm (shrinkOut_ne_self t))]
  · intro w w2 t a h
    rcases add_watermark_ok_inv h with ⟨_, hw⟩ | ⟨_, _, _, _, _, _,
      _, _, _, _, _, _, hw⟩
    · rw [hw]
    · rw [hw]
      unfold wmFinal
      rw [wDelete_files, lookup_remove_other _ _ _ (Ne.symm (tempPath_ne_self t)),
        wWrite_files, lookup_write_other _ _ _ _ (Ne.symm (wmOut_ne_self t)),
        wWrite_files, lookup_write_other _ _ _ _ (Ne.symm (tempPath_ne_self t))]

theorem c7_witness :
    lookupFile (wWrite cWa (shrinkOut cA false) (.pdf cDoc1)).files cA
      = lookupFile cWa.files cA ∧
    lookupFile (wmFinal cWa cA cArgs false cDoc1 612 792).files cA
      = lookupFile cWa.files cA :=
  ⟨c7_output_paths_and_input_preserved.2.2.1 cWa
      (wWrite cWa (shrinkOut cA false) (.pdf cDoc1)) cA (by decide),
   c7_output_paths_and_input_preserved.2.2.2 cWa
      (wmFinal cWa cA cArgs false cDoc1 612 792) cA cArgs (by decide)⟩

/-- C8: folder enumeration matches `*.pdf` case-sensitively — exactly the
immediate-child files whose name ends in the lowercase literal `.pdf` — while
shrink's single-file gate lowercases the suffix before comparing, so `X.PDF`
passes as a single-file target yet is invisible to batch mode. -/
theorem c8_glob_case_sensitive_vs_single_file :
    (∀ (w : World) (d p : FsPath),
      p ∈ globPdf w d ↔
        p ∈ w.files.map Prod.fst ∧ p.parent = dirAsParent d ∧ strEnds p.name ".pdf" = true) ∧
    strLower (suffixOf cXPDF.name) = ".pdf" ∧
    strEnds cXPDF.name ".pdf" = false ∧
    globPdf cW8 cDir = [] ∧
    shrinkCmd cW8 cXPDF false = .success (wWrite cW8 (shrinkOut cXPDF false) (.pdf cDoc1)) ∧
    shrinkCmd cW8 cDir false = .exitFail cW8 := by
  refine ⟨?_, by decide, by decide, by decide, by decide, by decide⟩
  intro w d p
  simp [globPdf, List.mem_filter, Bool.and_eq_true, decide_eq_true_eq, and_assoc]

/-- C9: the temporary overlay path appends `_temp` to the input's stem, in
the same directory with the same extension; a successful run writes the
overlay there — replacing any pre-existing file at that path — and the
cleanup step then removes the path entirely. -/
theorem c9_temp_path_and_preexisting_file :
    (∀ t : FsPath, (tempPath t).parent = t.parent ∧
      (tempPath t).name = (stemOf t.name ++ "_temp") ++ suffixOf t.name) ∧
    (∀ (w : World) (t : FsPath) (a : WmArgs) (ov : Bool) (w2 : World) (old : FileData),
      lookupFile w.files (tempPath t) = some old →
      strHasSub "_watermarked" (stemOf t.name) = false →
      add_watermark w t a ov = .ok w2 →
      ∃ (doc : PdfDoc) (pw ph : Rat),
        w2 = wmFinal w t a ov doc pw ph ∧
        lookupFile w2.files (tempPath t) = none) := by
  refine ⟨fun t => ⟨rfl, rfl⟩, ?_⟩
  intro w t a ov w2 old hold hm h
  rcases add_watermark_ok_inv h with ⟨hm2, _⟩ | ⟨_, doc, _, _, pw, ph,
    _, _, _, _, _, _, hw⟩
  · rw [hm2] at hm; cases hm
  · exact ⟨doc, pw, ph, hw, by rw [hw]; exact lookup_remove_same _ _⟩

theorem c9_witness :
    ∃ (doc : PdfDoc) (pw ph : Rat),
      wmFinal cW9 cA cArgs false cDoc1 612 792 = wmFinal cW9 cA cArgs false doc pw ph ∧
      lookupFile (wmFinal cW9 cA cArgs false cDoc1 612 792).files (tempPath cA) = none :=
  c9_temp_path_and_preexisting_file.2 cW9 cA cArgs false
    (wmFinal cW9 cA cArgs false cDoc1 612 792) (.raw 7) (by decide) (by decide) (by decide)

/-- C10 (amended): shrink has no already-processed guard: a file whose stem
contains `_shrunken` is processed again, with output stem the input stem with
`_shrunken` appended — so a stem that already ends in `_shrunken` yields one
ending in `_shrunken_shrunken` — and repeating a non-overwrite folder shrink
produces new files rather than being idempotent. -/
theorem c10_shrink_has_no_marker_guard :
    (∀ (w : World) (t : FsPath) (doc : PdfDoc),
      strHasSub "_shrunken" (stemOf t.name) = true →
      lookupFile w.files t = some (.pdf doc) →
      memPath w.locked (shrinkOut t false) = false →
      shrink_pdf w t (shrinkOut t false) = .ok (wWrite w (shrinkOut t false) (.pdf doc))) ∧
    (∀ t : FsPath, suffixOf t.name = ".pdf" →
      stemOf ((shrinkOut t false).name) = stemOf t.name ++ "_shrunken" ∧
      (strEnds (stemOf t.name) "_shrunken" = true →
        strEnds (stemOf ((shrinkOut t false).name)) "_shrunken_shrunken" = true)) ∧
    (shrinkCmd cW10 cDir false = .success cW10b ∧
     shrinkCmd cW10b cDir false = .success cW10c ∧
     cW10c ≠ cW10b ∧
     lookupFile cW10c.files cASSf = some (.pdf cDoc1)) := by
  refine ⟨?_, ?_, by decide, by decide, by decide, by decide⟩
  · intro w t doc hmark hl hlk
    simp [shrink_pdf, hl, hlk]
  · intro t hsfx
    have hname : (shrinkOut t false).name = (stemOf t.name ++ "_shrunken") ++ ".pdf" := by
      show (stemOf t.name ++ "_shrunken") ++ suffixOf t.name
        = (stemOf t.name ++ "_shrunken") ++ ".pdf"
      rw [hsfx]
    have hne : (stemOf t.name ++ "_shrunken").toList ≠ [] := by
      rw [toList_append]
      intro hcontra
      have hlen := congrArg List.length hcontra
      have h9 : ("_shrunken".toList).length = 9 := by decide
      simp [List.length_append, h9] at hlen
    have hstem : stemOf ((shrinkOut t false).name) = stemOf t.name ++ "_shrunken" := by
      rw [hname, stemOf_append_pdf _ hne]
    refine ⟨hstem, fun hends => ?_⟩
    rw [hstem]
    have hsplit : ("_shrunken_shrunken" : String) = "_shrunken" ++ "_shrunken" := by decide
    rw [hsplit, strEnds_append_cancel]
    exact hends

theorem c10_witness :
    shrink_pdf cW10b cASf (shrinkOut cASf false)
      = .ok (wWrite cW10b (shrinkOut cASf false) (.pdf cDoc1)) ∧
    stemOf ((shrinkOut cASf false).name) = stemOf cASf.name ++ "_shrunken" ∧
    strEnds (stemOf ((shrinkOut cASf false).name)) "_shrunken_shrunken" = true :=
  ⟨c10_shrink_has_no_marker_guard.1 cW10b cASf cDoc1 (by decide) (by decide) (by decide),
   (c10_shrink_has_no_marker_guard.2.1 cASf (by decide)).1,
   (c10_shrink_has_no_marker_guard.2.1 cASf (by decide)).2 (by decide)⟩

theorem c10_counterexample :
    strHasSub "_shrunken" (stemOf cXsy.name) = true ∧
    shrink_pdf cW10x cXsy (shrinkOut cXsy false) =
      .ok (wWrite cW10x (shrinkOut cXsy false) (.pdf cDoc1)) ∧
    strEnds (stemOf ((shrinkOut cXsy false).name)) "_shrunken_shrunken" = false := by decide

end PdfTool
